import Mathlib

/-!
Shallow embedding of the markdown-tools repository
(src/markdown_tools/uploaders.py and src/markdown_tools/__main__.py).

Document text, paths, keys and URLs are modelled as List Char.  Effectful
ingredients (file contents, filesystem existence, the S3 remote store, MD5
digests) are abstracted as explicit parameters; every pure computation is
translated directly from the Python source.
-/

namespace MarkdownTools

/-- Python separator join (the model of str.join on character lists). -/
def joinWith (sep : List Char) : List (List Char) → List Char
  | [] => []
  | [x] => x
  | x :: y :: rest => x ++ sep ++ joinWith sep (y :: rest)

/-- Prepend a character onto the first chunk of a chunk list. -/
def consHead (c : Char) : List (List Char) → List (List Char)
  | [] => [[c]]
  | h :: t => (c :: h) :: t

/-- Does pat occur as a contiguous substring of the text?  Executable. -/
def hasSub (pat : List Char) : List Char → Bool
  | [] => pat.isPrefixOf []
  | c :: rest => pat.isPrefixOf (c :: rest) || hasSub pat rest

/-- Fuelled model of Python str.replace with a nonempty pattern o :: os:
scan left to right, substitute each leftmost non-overlapping occurrence,
and never rescan the inserted text.  Any fuel of at least the length of
the scanned text gives the same (fuel-independent) result. -/
def replaceNeGo (o : Char) (os new : List Char) : Nat → List Char → List Char
  | 0, s => s
  | _ + 1, [] => []
  | fuel + 1, c :: rest =>
    if (o :: os).isPrefixOf (c :: rest) then
      new ++ replaceNeGo o os new fuel (rest.drop os.length)
    else
      c :: replaceNeGo o os new fuel rest

/-- Companion of replaceNeGo: the chunks of text standing between the
occurrences that replaceNeGo substitutes (Python str.split with a
nonempty separator). -/
def splitNeGo (o : Char) (os : List Char) : Nat → List Char → List (List Char)
  | 0, s => [s]
  | _ + 1, [] => [[]]
  | fuel + 1, c :: rest =>
    if (o :: os).isPrefixOf (c :: rest) then
      [] :: splitNeGo o os fuel (rest.drop os.length)
    else
      consHead c (splitNeGo o os fuel rest)

/-- Python str.replace(old, new) on character lists (uploaders.py line 147).
For an empty old, Python inserts new before every character and once at
the end. -/
def pyReplace (s old new : List Char) : List Char :=
  match old with
  | [] => new ++ (s.map (fun c => c :: new)).flatten
  | o :: os => replaceNeGo o os new s.length s

/-- Python str.split(old) for nonempty old: the chunks between the
occurrences that pyReplace replaces.  For empty old Python raises; we
return the whole text as one chunk, and no claim depends on that case. -/
def pySplit (s old : List Char) : List (List Char) :=
  match old with
  | [] => [s]
  | o :: os => splitNeGo o os s.length s

lemma joinWith_consHead (sep : List Char) (c : Char) (h : List Char)
    (t : List (List Char)) :
    joinWith sep (consHead c (h :: t)) = c :: joinWith sep (h :: t) := by
  cases t <;> simp [consHead, joinWith]

lemma splitNeGo_ne_nil (o : Char) (os : List Char) (fuel : Nat) (s : List Char) :
    splitNeGo o os fuel s ≠ [] := by
  match fuel, s with
  | 0, s => simp [splitNeGo]
  | _ + 1, [] => simp [splitNeGo]
  | fuel + 1, c :: rest =>
    by_cases hpre : (o :: os).isPrefixOf (c :: rest) = true
    · simp [splitNeGo, hpre]
    · rw [Bool.not_eq_true] at hpre
      simp only [splitNeGo, hpre, Bool.false_eq_true, if_false]
      rcases splitNeGo o os fuel rest with _ | ⟨h, t⟩ <;> simp [consHead]

lemma replaceNeGo_eq_joinWith (o : Char) (os new : List Char) :
    ∀ (fuel : Nat) (s : List Char),
      replaceNeGo o os new fuel s = joinWith new (splitNeGo o os fuel s)
  | 0, _ => rfl
  | _ + 1, [] => rfl
  | fuel + 1, c :: rest => by
    by_cases hpre : (o :: os).isPrefixOf (c :: rest) = true
    · simp only [replaceNeGo, splitNeGo, hpre, if_true]
      rcases hsp : splitNeGo o os fuel (rest.drop os.length) with _ | ⟨h, t⟩
      · exact absurd hsp (splitNeGo_ne_nil o os fuel (rest.drop os.length))
      · rw [replaceNeGo_eq_joinWith o os new fuel (rest.drop os.length), hsp]
        simp [joinWith]
    · rw [Bool.not_eq_true] at hpre
      simp only [replaceNeGo, splitNeGo, hpre, Bool.false_eq_true, if_false]
      rcases hsp : splitNeGo o os fuel rest with _ | ⟨h, t⟩
      · exact absurd hsp (splitNeGo_ne_nil o os fuel rest)
      · rw [replaceNeGo_eq_joinWith o os new fuel rest, hsp, joinWith_consHead]

lemma splitNeGo_head_prefix (o : Char) (os : List Char) :
    ∀ (fuel : Nat) (s h : List Char) (t : List (List Char)),
      splitNeGo o os fuel s = h :: t → h <+: s
  | 0, s, h, t, heq => by
    simp only [splitNeGo] at heq
    injection heq with heq1 heq2
    rw [← heq1]
  | _ + 1, [], h, t, heq => by
    simp only [splitNeGo] at heq
    injection heq with heq1 heq2
    rw [← heq1]
  | fuel + 1, c :: rest, h, t, heq => by
    by_cases hpre : (o :: os).isPrefixOf (c :: rest) = true
    · simp only [splitNeGo, hpre, if_true] at heq
      injection heq with heq1 heq2
      rw [← heq1]
      exact List.nil_prefix
    · rw [Bool.not_eq_true] at hpre
      simp only [splitNeGo, hpre, Bool.false_eq_true, if_false] at heq
      rcases hsp : splitNeGo o os fuel rest with _ | ⟨h1, t1⟩
      · exact absurd hsp (splitNeGo_ne_nil o os fuel rest)
      · rw [hsp] at heq
        simp only [consHead] at heq
        injection heq with heq1 heq2
        rw [← heq1]
        obtain ⟨u, hu⟩ := splitNeGo_head_prefix o os fuel rest h1 t1 hsp
        exact ⟨u, by rw [List.cons_append, hu]⟩

lemma splitNeGo_chunks (o : Char) (os : List Char) :
    ∀ (fuel : Nat) (s : List Char), s.length ≤ fuel →
      ∀ chunk ∈ splitNeGo o os fuel s, hasSub (o :: os) chunk = false
  | 0, s, hlen, chunk, hmem => by
    have hs : s = [] := List.eq_nil_of_length_eq_zero (Nat.le_zero.mp hlen)
    subst hs
    simp only [splitNeGo, List.mem_singleton] at hmem
    subst hmem
    simp [hasSub, List.isPrefixOf]
  | _ + 1, [], _, chunk, hmem => by
    simp only [splitNeGo, List.mem_singleton] at hmem
    subst hmem
    simp [hasSub, List.isPrefixOf]
  | fuel + 1, c :: rest, hlen, chunk, hmem => by
    have hlen2 : rest.length ≤ fuel := by
      simpa using Nat.le_of_succ_le_succ hlen
    by_cases hpre : (o :: os).isPrefixOf (c :: rest) = true
    · simp only [splitNeGo, hpre, if_true, List.mem_cons] at hmem
      rcases hmem with hmem | hmem
      · subst hmem
        simp [hasSub, List.isPrefixOf]
      · have hlen3 : (rest.drop os.length).length ≤ fuel := by
          simp only [List.length_drop]
          omega
        exact splitNeGo_chunks o os fuel (rest.drop os.length) hlen3 chunk hmem
    · rw [Bool.not_eq_true] at hpre
      simp only [splitNeGo, hpre, Bool.false_eq_true, if_false] at hmem
      rcases hsp : splitNeGo o os fuel rest with _ | ⟨h1, t1⟩
      · exact absurd hsp (splitNeGo_ne_nil o os fuel rest)
      · rw [hsp] at hmem
        simp only [consHead, List.mem_cons] at hmem
        rcases hmem with hmem | hmem
        · subst hmem
          have hh1 : hasSub (o :: os) h1 = false :=
            splitNeGo_chunks o os fuel rest hlen2 h1 (by rw [hsp]; exact List.mem_cons_self _ _)
          have hnp : (o :: os).isPrefixOf (c :: h1) = false := by
            by_contra hb
            have hb2 : (o :: os).isPrefixOf (c :: h1) = true := by
              revert hb
              cases (o :: os).isPrefixOf (c :: h1) <;> simp
            have hp1 : (o :: os) <+: (c :: h1) := List.isPrefixOf_iff_prefix.mp hb2
            have hp2 : (c :: h1) <+: (c :: rest) := by
              obtain ⟨u, hu⟩ := splitNeGo_head_prefix o os fuel rest h1 t1 hsp
              exact ⟨u, by rw [List.cons_append, hu]⟩
            rw [List.isPrefixOf_iff_prefix.mpr (hp1.trans hp2)] at hpre
            cases hpre
          simp [hasSub, hnp, hh1]
        · exact splitNeGo_chunks o os fuel rest hlen2 chunk (by rw [hsp]; exact List.mem_cons_of_mem _ hmem)

/-- Every pass of Python str.replace with a nonempty pattern substitutes all
leftmost non-overlapping occurrences: the result is the pattern-separated
chunks of the input joined with the replacement text. -/
lemma pyReplace_eq_joinWith (s old new : List Char) (h : old ≠ []) :
    pyReplace s old new = joinWith new (pySplit s old) := by
  match old with
  | [] => exact absurd rfl h
  | o :: os => simp [pyReplace, pySplit, replaceNeGo_eq_joinWith]

/-- No chunk produced by pySplit with a nonempty pattern still contains the
pattern as a substring. -/
lemma pySplit_chunks (s old : List Char) (h : old ≠ []) :
    ∀ chunk ∈ pySplit s old, hasSub old chunk = false := by
  match old with
  | [] => exact absurd rfl h
  | o :: os => exact splitNeGo_chunks o os s.length s (le_refl _)

/-! ## Reference extraction (uploaders.py lines 14-15 and 128-132)

The extractor is the regular expression PATTERN_FNAME, an image tag with a
lazy alt part and a lazy filename part, where the dot matches anything but
a newline.  re.findall scans left to right, tries a match at each
position, and resumes after the end of each (non-overlapping) match. -/

/-- The lazy filename part of PATTERN_FNAME: consume up to the first
closing parenthesis, failing on a newline or the end of input.  Returns
the capture and the rest of the input. -/
def matchFname : List Char → Option (List Char × List Char)
  | [] => none
  | c :: rest =>
    if c = ')' then some ([], rest)
    else if c = '\n' then none
    else
      match matchFname rest with
      | some (f, r) => some (c :: f, r)
      | none => none

/-- The lazy alt part of PATTERN_FNAME after the opening bracket of the
tag: scan (with backtracking) for a closing bracket directly followed by
an opening parenthesis, never crossing a newline, then hand over to
matchFname. -/
def matchAlt : List Char → Option (List Char × List Char)
  | [] => none
  | c :: rest =>
    if c = ']' ∧ rest.head? = some '(' then
      match matchFname rest.tail with
      | some fr => some fr
      | none => matchAlt rest
    else if c = '\n' then none
    else matchAlt rest

/-- Try to match the whole image tag pattern at the current position. -/
def findImage : List Char → Option (List Char × List Char)
  | c :: d :: rest => if c = '!' ∧ d = '[' then matchAlt rest else none
  | _ => none

/-- Fuelled scanning loop of re.findall: fuel bounds the number of scanned
positions, and the text length is always enough fuel. -/
def findallGo : Nat → List Char → List (List Char)
  | 0, _ => []
  | _ + 1, [] => []
  | fuel + 1, c :: rest =>
    match findImage (c :: rest) with
    | some (f, r) => f :: findallGo fuel r
    | none => findallGo fuel rest

/-- re.findall(PATTERN_FNAME, content): the list of filename captures of
all non-overlapping matches, left to right (uploaders.py line 132). -/
def findall (content : List Char) : List (List Char) :=
  findallGo content.length content

/-! ## Relative reference test (uploaders.py line 122)

is_relative is: urllib.parse.urlparse(url).netloc is empty.  urlparse
strips a scheme (letters, digits, plus, minus, dot, first one a letter,
ending at the first colon) and reads a network location only after a
leading double slash, up to the next slash, question mark or hash. -/

def isSchemeChar (c : Char) : Bool :=
  c.isAlphanum || c = '+' || c = '-' || c = '.'

/-- Split a character list at the first colon, if any. -/
def splitAtColon : List Char → Option (List Char × List Char)
  | [] => none
  | c :: rest =>
    if c = ':' then some ([], rest)
    else
      match splitAtColon rest with
      | some (b, a) => some (c :: b, a)
      | none => none

/-- Remove a well-formed scheme prefix, as urlparse does. -/
def stripScheme (url : List Char) : List Char :=
  match splitAtColon url with
  | some (before, after) =>
    match before with
    | [] => url
    | b :: bs => if b.isAlpha ∧ (b :: bs).all isSchemeChar then after else url
  | none => url

/-- The network-location component read by urlparse. -/
def netlocOf (url : List Char) : List Char :=
  match stripScheme url with
  | '/' :: '/' :: rest => rest.takeWhile (fun c => !(c = '/' || c = '?' || c = '#'))
  | _ => []

/-- is_relative from uploaders.py line 122: the URL has no network
location. -/
def is_relative (url : List Char) : Bool := netlocOf url = []

/-! ## Percent decoding and path resolution (uploaders.py lines 126-137)

urllib.parse.unquote is modelled byte-for-byte for ASCII percent escapes
(a percent sign followed by two hex digits decodes to that code point;
anything else is left as written).  Multi-byte UTF-8 escape runs are
outside the modelled ASCII scope; no claim depends on them.

pathlib joining and stringification drop empty and single-dot components
and never touch double dots; the POSIX double-leading-slash corner case
is outside the modelled scope. -/

def hexDigitVal (c : Char) : Option Nat :=
  if c.isDigit then some (c.toNat - '0'.toNat)
  else if 'a' ≤ c ∧ c ≤ 'f' then some (c.toNat - 'a'.toNat + 10)
  else if 'A' ≤ c ∧ c ≤ 'F' then some (c.toNat - 'A'.toNat + 10)
  else none

/-- urllib.parse.unquote on character lists (ASCII scope). -/
def pyUnquote : List Char → List Char
  | '%' :: a :: b :: rest =>
    match hexDigitVal a, hexDigitVal b with
    | some x, some y => Char.ofNat (16 * x + y) :: pyUnquote rest
    | _, _ => '%' :: pyUnquote (a :: b :: rest)
  | c :: rest => c :: pyUnquote rest
  | [] => []

/-- Split a character list on slashes. -/
def splitOnSlash : List Char → List (List Char)
  | [] => [[]]
  | c :: rest =>
    if c = '/' then [] :: splitOnSlash rest
    else consHead c (splitOnSlash rest)

/-- The pathlib components of a path string: empty and single-dot pieces
are dropped. -/
def pathParts (l : List Char) : List (List Char) :=
  (splitOnSlash l).filter (fun p => decide (p ≠ [] ∧ p ≠ ['.']))

def isAbsPath (l : List Char) : Bool :=
  match l with
  | '/' :: _ => true
  | _ => false

/-- str() of a pathlib path with the given components. -/
def renderPath (abs : Bool) (parts : List (List Char)) : List Char :=
  if abs then '/' :: joinWith ['/'] parts
  else if parts = [] then ['.'] else joinWith ['/'] parts

/-- base / rel as pathlib joins paths: an absolute right operand replaces
the left one (uploaders.py line 135). -/
def pyPathJoin (base rel : List Char) : List Char :=
  if isAbsPath rel then renderPath true (pathParts rel)
  else renderPath (isAbsPath base) (pathParts base ++ pathParts rel)

/-- Path(p).name: the last pathlib component, or empty. -/
def baseName (l : List Char) : List Char :=
  ((pathParts l).getLast?).getD []

/-- Path(p).stem: the name without its final suffix; a dot at the start
or at the very end of the name does not begin a suffix. -/
def pyStem (l : List Char) : List Char :=
  let n := baseName l
  let revAfter := n.reverse.takeWhile (fun c => c ≠ '.')
  if revAfter.length = n.length then n
  else
    let i := n.length - 1 - revAfter.length
    if 0 < i ∧ i < n.length - 1 then n.take i else n

/-! ## URL quoting (uploaders.py line 52)

urllib.parse.quote encodes the UTF-8 bytes of the key: unreserved bytes
(letters, digits, underscore, dot, minus, tilde) and the default safe
slash stay as they are, every other byte becomes a percent escape with
two uppercase hex digits. -/

/-- UTF-8 encoding of one code point, as a list of byte values. -/
def utf8Bytes (c : Char) : List Nat :=
  let n := c.toNat
  if n < 128 then [n]
  else if n < 2048 then [192 + n / 64, 128 + n % 64]
  else if n < 65536 then [224 + n / 4096, 128 + (n / 64) % 64, 128 + n % 64]
  else [240 + n / 262144, 128 + (n / 4096) % 64, 128 + (n / 64) % 64, 128 + n % 64]

def isSafeByte (b : Nat) : Bool :=
  (65 ≤ b && b ≤ 90) || (97 ≤ b && b ≤ 122) || (48 ≤ b && b ≤ 57) ||
  b = 95 || b = 46 || b = 45 || b = 126 || b = 47

def hexUpper (n : Nat) : Char :=
  if n < 10 then Char.ofNat (48 + n) else Char.ofNat (55 + n)

def quoteByte (b : Nat) : List Char :=
  if isSafeByte b then [Char.ofNat b]
  else ['%', hexUpper (b / 16), hexUpper (b % 16)]

/-- urllib.parse.quote with the default safe slash. -/
def pyQuote (s : List Char) : List Char :=
  ((s.map utf8Bytes).flatten.map quoteByte).flatten

/-! ## String strips -/

/-- Python str.strip(ch): remove every leading and trailing occurrence of
the character (used for the quotes around the remote ETag,
uploaders.py line 56). -/
def pyStripChar (ch : Char) (l : List Char) : List Char :=
  ((l.dropWhile (fun c => c = ch)).reverse.dropWhile (fun c => c = ch)).reverse

/-- s3_relative_path.rstrip of slash then lstrip of slash
(uploaders.py line 27). -/
def stripSlashes (l : List Char) : List Char :=
  ((l.reverse.dropWhile (fun c => c = '/')).reverse).dropWhile (fun c => c = '/')

/-! ## Key prefix pattern expansion (main module lines 23-26)

s3_base_key.format(filename=..., parent_0=..., random_hex=...) expands
the three placeholder fields in one left-to-right pass.  The braces in
the string literals below are the literal placeholder delimiters. -/

/-- Fuelled single pass over the pattern; fuel at least the pattern
length is always enough, since every step consumes at least one
character. -/
def pyFormatKeyGo (fn p0 rh : List Char) : Nat → List Char → List Char
  | 0, pat => pat
  | fuel + 1, pat =>
    match pat with
    | [] => []
    | c :: rest =>
      if ("\x7bfilename\x7d".toList).isPrefixOf (c :: rest) then
        fn ++ pyFormatKeyGo fn p0 rh fuel ((c :: rest).drop 10)
      else if ("\x7bparent_0\x7d".toList).isPrefixOf (c :: rest) then
        p0 ++ pyFormatKeyGo fn p0 rh fuel ((c :: rest).drop 10)
      else if ("\x7brandom_hex\x7d".toList).isPrefixOf (c :: rest) then
        rh ++ pyFormatKeyGo fn p0 rh fuel ((c :: rest).drop 12)
      else c :: pyFormatKeyGo fn p0 rh fuel rest

/-- str.format on the key prefix pattern with the three supported
fields. -/
def pyFormatKey (pat fn p0 rh : List Char) : List Char :=
  pyFormatKeyGo fn p0 rh pat.length pat

/-! ## The S3 uploader (uploaders.py lines 24-78)

The boto3 client is an I/O effect.  head_object is abstracted as a
function from the key to a response: either a success carrying the raw
ETag header (resp.get of ETag with an empty default), or a botocore
ClientError carrying its error code.  put_object is recorded as an
action; the body bytes and the CacheControl, ACL and ContentType entries
of kwargs ride along with the put and carry no claim, so they are not
recorded.  The MD5 hexdigest of the local file bytes is abstracted as an
input. -/

inductive HeadResponse where
  | ok (etagRaw : List Char)
  | clientError (code : List Char)

/-- One remote call performed by upload_image, with the key it targets. -/
inductive S3Action where
  | headObject (key : List Char)
  | putObject (key : List Char)
deriving DecidableEq

def S3Action.key : S3Action → List Char
  | .headObject k => k
  | .putObject k => k

def S3Action.isPut : S3Action → Bool
  | .putObject _ => true
  | _ => false

structure S3Uploader where
  bucket : List Char
  relative_path : List Char
  cloudfront_domain : Option (List Char)

/-- The S3Uploader constructor: the key prefix is stripped of leading and
trailing slashes (uploaders.py lines 25-39; the ACL, cache control and
client arguments carry no claim). -/
def S3Uploader.init (s3_bucket s3_relative_path : List Char)
    (s3_cloudfront_domain : Option (List Char)) : S3Uploader :=
  ⟨s3_bucket, stripSlashes s3_relative_path, s3_cloudfront_domain⟩

/-- The host of the produced URL (uploaders.py line 42). -/
def s3Dns (u : S3Uploader) : List Char :=
  u.cloudfront_domain.getD (u.bucket ++ ".s3.amazonaws.com".toList)

/-- The remote key (uploaders.py line 51). -/
def s3Key (u : S3Uploader) (image_path : List Char) : List Char :=
  u.relative_path ++ '/' :: baseName image_path

/-- The returned URL (uploaders.py line 52), computed before any remote
call. -/
def s3Url (u : S3Uploader) (image_path : List Char) : List Char :=
  "https://".toList ++ s3Dns u ++ '/' :: pyQuote (s3Key u image_path)

/-- S3Uploader.upload_image (uploaders.py lines 41-78).  Returns the
remote calls it performs, in order, and either the URL or the propagated
ClientError code. -/
def S3Uploader.upload_image (u : S3Uploader) (image_path md5hex : List Char)
    (head : List Char → HeadResponse) (override validate_etag : Bool) :
    List S3Action × Except (List Char) (List Char) :=
  if override then
    ([S3Action.putObject (s3Key u image_path)], Except.ok (s3Url u image_path))
  else
    match head (s3Key u image_path) with
    | HeadResponse.ok etagRaw =>
      if pyStripChar '"' etagRaw = [] || !validate_etag then
        ([S3Action.headObject (s3Key u image_path)], Except.ok (s3Url u image_path))
      else if md5hex = pyStripChar '"' etagRaw then
        ([S3Action.headObject (s3Key u image_path)], Except.ok (s3Url u image_path))
      else
        ([S3Action.headObject (s3Key u image_path), S3Action.putObject (s3Key u image_path)],
          Except.ok (s3Url u image_path))
    | HeadResponse.clientError code =>
      if code ≠ "404".toList then
        ([S3Action.headObject (s3Key u image_path)], Except.error code)
      else
        ([S3Action.headObject (s3Key u image_path), S3Action.putObject (s3Key u image_path)],
          Except.ok (s3Url u image_path))

/-! ## The per-document pipeline (uploaders.py lines 102-151)

upload_relative_images reads the document, extracts the distinct relative
references, resolves them against the document directory, aborts with the
aggregated missing list if any resolved path does not exist, otherwise
uploads each reference once and rewrites the text.

Abstractions: the document text and its directory are passed directly
instead of being read from original_path; filesystem existence is the
fsExists parameter; the chosen uploader with its override flag is the
up function from the resolved path to the URL; the iteration order of
the Python set of references is the refs parameter, constrained by
ValidOrder below.  Writing the output file is returned as the final
text. -/

/-- The resolved absolute location of one raw reference
(uploaders.py line 135). -/
def resolveRef (base r : List Char) : List Char :=
  pyPathJoin base (pyUnquote r)

structure DocResult where
  /-- The upload_image calls performed, as pairs of the raw reference and
  the resolved path argument, in call order. -/
  uploads : List (List Char × List Char)
  /-- The raised error message, or the reference-to-URL mapping together
  with the written output text. -/
  outcome : Except (List Char) (List (List Char × List Char) × List Char)

def upload_relative_images (content base : List Char)
    (fsExists : List Char → Bool) (up : List Char → List Char)
    (refs : List (List Char)) : DocResult :=
  let image_mapping := refs.map (fun r => (r, resolveRef base r))
  let missing_images := (image_mapping.filter (fun ra => !fsExists ra.2)).map (fun ra => ra.2)
  if missing_images = [] then
    let image_results := image_mapping.map (fun ra => (ra.1, up ra.2))
    let newContent := image_results.foldl (fun c ru => pyReplace c ru.1 ru.2) content
    { uploads := image_mapping, outcome := Except.ok (image_results, newContent) }
  else
    { uploads := [],
      outcome := Except.error ("Missing images: ".toList ++ joinWith [','] missing_images) }

/-- One canonical enumeration of the Python set
of extracted relative references (uploaders.py line 132). -/
def extractRefs (content : List Char) : List (List Char) :=
  ((findall content).filter is_relative).dedup

/-- refs is a valid iteration order of the set built on line 132: no
duplicates, and exactly the relative references found in the text. -/
def ValidOrder (content : List Char) (refs : List (List Char)) : Prop :=
  refs.Nodup ∧ ∀ r, r ∈ refs ↔ (r ∈ findall content ∧ is_relative r = true)

lemma validOrder_extractRefs (content : List Char) :
    ValidOrder content (extractRefs content) := by
  refine ⟨List.nodup_dedup _, fun r => ?_⟩
  rw [extractRefs, List.mem_dedup, List.mem_filter]

/-! ## Helper lemmas shared by the claim theorems -/

/-- Every remote call performed by upload_image targets the computed
key. -/
lemma s3_upload_actions_key (u : S3Uploader) (p md5 : List Char)
    (head : List Char → HeadResponse) (o v : Bool) :
    ∀ a ∈ (u.upload_image p md5 head o v).1, a.key = s3Key u p := by
  intro a ha
  unfold S3Uploader.upload_image at ha
  split at ha
  · simp only [List.mem_singleton] at ha
    subst ha
    rfl
  · split at ha
    · split at ha
      · simp only [List.mem_singleton] at ha
        subst ha
        rfl
      · split at ha
        · simp only [List.mem_singleton] at ha
          subst ha
          rfl
        · simp only [List.mem_cons, List.not_mem_nil, or_false] at ha
          rcases ha with rfl | rfl <;> rfl
    · split at ha
      · simp only [List.mem_singleton] at ha
        subst ha
        rfl
      · simp only [List.mem_cons, List.not_mem_nil, or_false] at ha
        rcases ha with rfl | rfl <;> rfl

/-- Whenever upload_image returns a URL, it is the one computed from the
configuration and the file name before any remote call. -/
lemma s3_upload_ok_url (u : S3Uploader) (p md5 : List Char)
    (head : List Char → HeadResponse) (o v : Bool) (url : List Char)
    (h : (u.upload_image p md5 head o v).2 = Except.ok url) :
    url = s3Url u p := by
  unfold S3Uploader.upload_image at h
  split at h
  · simp at h
    exact h.symm
  · split at h
    · split at h
      · simp at h
        exact h.symm
      · split at h
        · simp at h
          exact h.symm
        · simp at h
          exact h.symm
    · split at h
      · simp at h
      · simp at h
        exact h.symm

lemma map_filter_snd (refs : List (List Char)) (g : List Char → List Char)
    (q : List Char → Bool) :
    ((refs.map (fun r => (r, g r))).filter (fun ra => q ra.2)).map (fun ra => ra.2) =
      (refs.filter (fun r => q (g r))).map g := by
  induction refs with
  | nil => rfl
  | cons a as ih => by_cases h : q (g a) = true <;> simp [h, ih]

lemma filter_fst_pairs (refs : List (List Char)) (g : List Char → List Char)
    (R : List Char) :
    (refs.map (fun r => (r, g r))).filter (fun ra => ra.1 = R) =
      (refs.filter (fun r => r = R)).map (fun r => (r, g r)) := by
  induction refs with
  | nil => rfl
  | cons a as ih => by_cases h : a = R <;> simp [h, ih]

lemma filter_eq_singleton_of_nodup (refs : List (List Char)) (R : List Char)
    (hnd : refs.Nodup) (hR : R ∈ refs) :
    refs.filter (fun r => r = R) = [R] := by
  induction refs with
  | nil => cases hR
  | cons a as ih =>
    rcases List.mem_cons.mp hR with h | h
    · subst h
      have hnil : as.filter (fun r => r = R) = [] := by
        apply List.filter_eq_nil_iff.mpr
        intro x hx
        simp only [decide_eq_true_eq]
        rintro rfl
        exact (List.nodup_cons.mp hnd).1 hx
      simp [hnil]
    · have hne : ¬(a = R) := by
        rintro rfl
        exact (List.nodup_cons.mp hnd).1 h
      simp only [List.filter_cons, decide_eq_true_eq, hne, if_false]
      exact ih (List.nodup_cons.mp hnd).2 h

lemma foldl_replace_eq_joinWith (rs : List (List Char × List Char)) :
    ∀ content : List Char, (∀ ru ∈ rs, ru.1 ≠ []) →
      rs.foldl (fun c ru => pyReplace c ru.1 ru.2) content =
        rs.foldl (fun c ru => joinWith ru.2 (pySplit c ru.1)) content := by
  induction rs with
  | nil => intro c _; rfl
  | cons ru rs ih =>
    intro c h
    simp only [List.foldl_cons]
    rw [pyReplace_eq_joinWith _ _ _ (h ru (List.mem_cons_self _ _))]
    exact ih _ (fun x hx => h x (List.mem_cons_of_mem _ hx))

/-! ## The claims -/

/-- C6: with override true, upload_image performs the put unconditionally,
overwriting the remote object at the computed key, and consults no
existence check: the only remote call is the put, whatever the remote
state is. -/
theorem s3_override_always_puts (u : S3Uploader) (p md5 : List Char)
    (head : List Char → HeadResponse) (v : Bool) :
    u.upload_image p md5 head true v =
      ([S3Action.putObject (s3Key u p)], Except.ok (s3Url u p)) := rfl

/-- C7: with override false, an existence-check failure with any error
code other than 404 propagates to the caller with no put and no retry;
only a 404 response leads to proceeding with the upload. -/
theorem s3_head_error_propagates (u : S3Uploader) (p md5 code : List Char)
    (head : List Char → HeadResponse) (v : Bool)
    (hhead : head (s3Key u p) = HeadResponse.clientError code) :
    (code ≠ "404".toList →
      u.upload_image p md5 head false v =
        ([S3Action.headObject (s3Key u p)], Except.error code)) ∧
    (code = "404".toList →
      u.upload_image p md5 head false v =
        ([S3Action.headObject (s3Key u p), S3Action.putObject (s3Key u p)],
          Except.ok (s3Url u p))) := by
  constructor <;> intro hc
  all_goals simp [S3Uploader.upload_image, hhead, hc]
  all_goals exact hc

/-- C7 witness: a concrete 500 error on the existence check propagates
with no put. -/
theorem s3_head_error_propagates_witness :
    "500".toList ≠ "404".toList ∧
    (S3Uploader.init "b".toList "pre".toList none).upload_image "a.png".toList
        "m".toList (fun _ => HeadResponse.clientError "500".toList) false true =
      ([S3Action.headObject (s3Key (S3Uploader.init "b".toList "pre".toList none) "a.png".toList)],
        Except.error "500".toList) := by
  refine ⟨by decide, ?_⟩
  exact (s3_head_error_propagates (S3Uploader.init "b".toList "pre".toList none)
    "a.png".toList "m".toList "500".toList
    (fun _ => HeadResponse.clientError "500".toList) true rfl).1 (by decide)

/-- C3: with override false, a reported nonempty remote digest and digest
validation enabled, upload_image skips the put and returns the URL when
the local MD5 equals the remote digest, and performs the put (an
overwrite at the same key) when they differ. -/
theorem s3_etag_policy (u : S3Uploader) (p md5 etagRaw : List Char)
    (head : List Char → HeadResponse)
    (hhead : head (s3Key u p) = HeadResponse.ok etagRaw)
    (hne : pyStripChar '"' etagRaw ≠ []) :
    (md5 = pyStripChar '"' etagRaw →
      u.upload_image p md5 head false true =
        ([S3Action.headObject (s3Key u p)], Except.ok (s3Url u p))) ∧
    (md5 ≠ pyStripChar '"' etagRaw →
      u.upload_image p md5 head false true =
        ([S3Action.headObject (s3Key u p), S3Action.putObject (s3Key u p)],
          Except.ok (s3Url u p))) := by
  constructor <;> intro hc <;>
    simp [S3Uploader.upload_image, hhead, hne, hc]

/-- C3 witness: concrete matching and differing digests against a remote
ETag of abc. -/
theorem s3_etag_policy_witness :
    pyStripChar '"' "\"abc\"".toList ≠ [] ∧
    (S3Uploader.init "b".toList "pre".toList none).upload_image "a.png".toList
        "abc".toList (fun _ => HeadResponse.ok "\"abc\"".toList) false true =
      ([S3Action.headObject (s3Key (S3Uploader.init "b".toList "pre".toList none) "a.png".toList)],
        Except.ok (s3Url (S3Uploader.init "b".toList "pre".toList none) "a.png".toList)) ∧
    (S3Uploader.init "b".toList "pre".toList none).upload_image "a.png".toList
        "zzz".toList (fun _ => HeadResponse.ok "\"abc\"".toList) false true =
      ([S3Action.headObject (s3Key (S3Uploader.init "b".toList "pre".toList none) "a.png".toList),
        S3Action.putObject (s3Key (S3Uploader.init "b".toList "pre".toList none) "a.png".toList)],
        Except.ok (s3Url (S3Uploader.init "b".toList "pre".toList none) "a.png".toList)) := by
  refine ⟨by decide, ?_, ?_⟩
  · exact (s3_etag_policy (S3Uploader.init "b".toList "pre".toList none) "a.png".toList
      "abc".toList "\"abc\"".toList (fun _ => HeadResponse.ok "\"abc\"".toList)
      rfl (by decide)).1 (by decide)
  · exact (s3_etag_policy (S3Uploader.init "b".toList "pre".toList none) "a.png".toList
      "zzz".toList "\"abc\"".toList (fun _ => HeadResponse.ok "\"abc\"".toList)
      rfl (by decide)).2 (by decide)

/-- C10: with override false, a successful existence check whose reported
ETag is missing or empty (empty after stripping quotes) skips the upload
and returns the URL whatever the validation flag and whatever the local
digest is: no digest comparison takes place. -/
theorem s3_empty_etag_skips (u : S3Uploader) (p md5 etagRaw : List Char)
    (head : List Char → HeadResponse) (v : Bool)
    (hhead : head (s3Key u p) = HeadResponse.ok etagRaw)
    (hempty : pyStripChar '"' etagRaw = []) :
    u.upload_image p md5 head false v =
      ([S3Action.headObject (s3Key u p)], Except.ok (s3Url u p)) := by
  simp [S3Uploader.upload_image, hhead, hempty]

/-- C10 witness: a remote object reporting an empty quoted ETag is left
alone even with validation enabled, for an arbitrary local digest. -/
theorem s3_empty_etag_skips_witness :
    pyStripChar '"' "\"\"".toList = [] ∧
    (S3Uploader.init "b".toList "pre".toList none).upload_image "a.png".toList
        "whatever".toList (fun _ => HeadResponse.ok "\"\"".toList) false true =
      ([S3Action.headObject (s3Key (S3Uploader.init "b".toList "pre".toList none) "a.png".toList)],
        Except.ok (s3Url (S3Uploader.init "b".toList "pre".toList none) "a.png".toList)) := by
  refine ⟨by decide, ?_⟩
  exact s3_empty_etag_skips (S3Uploader.init "b".toList "pre".toList none)
    "a.png".toList "whatever".toList "\"\"".toList
    (fun _ => HeadResponse.ok "\"\"".toList) true rfl (by decide)

/-- C9: whatever the override flag, the validation flag, the local digest
and the remote state are, any URL returned by upload_image is the one
computed purely from the configuration and the file name; two calls that
return URLs return the same string. -/
theorem s3_url_deterministic (u : S3Uploader) (p md5 : List Char)
    (head : List Char → HeadResponse) (o v : Bool) (url : List Char)
    (h : (u.upload_image p md5 head o v).2 = Except.ok url) :
    url = s3Url u p ∧
    ∀ q : List Char, baseName q = baseName p → s3Url u q = s3Url u p := by
  refine ⟨s3_upload_ok_url u p md5 head o v url h, fun q hq => ?_⟩
  simp [s3Url, s3Key, hq]

/-- C9 witness: a skipped upload (existing identical object) and a
performed upload (override) return the same concrete URL. -/
theorem s3_url_deterministic_witness :
    ((S3Uploader.init "b".toList "pre".toList none).upload_image "a.png".toList
        "m".toList (fun _ => HeadResponse.clientError "404".toList) true false).2 =
      Except.ok "https://b.s3.amazonaws.com/pre/a.png".toList ∧
    "https://b.s3.amazonaws.com/pre/a.png".toList =
      s3Url (S3Uploader.init "b".toList "pre".toList none) "a.png".toList := by
  refine ⟨by rfl, ?_⟩
  exact (s3_url_deterministic (S3Uploader.init "b".toList "pre".toList none)
    "a.png".toList "m".toList (fun _ => HeadResponse.clientError "404".toList)
    true false "https://b.s3.amazonaws.com/pre/a.png".toList (by rfl)).1

/-- C5: every remote call of upload_image targets the key formed by the
slash-stripped prefix and the base name of the local file, any returned
URL is https plus the host (the custom domain when set, the bucket S3
domain otherwise) plus the URL-encoded key, and in particular the prefix
pattern docs/{filename} expanded for notes/post.md with bucket b and no
custom domain yields https://b.s3.amazonaws.com/docs/post/a.png for
a.png. -/
theorem s3_key_url_format (s3_bucket s3_relative_path p md5 : List Char)
    (cf : Option (List Char)) (head : List Char → HeadResponse)
    (o v : Bool) (url : List Char)
    (h : ((S3Uploader.init s3_bucket s3_relative_path cf).upload_image
        p md5 head o v).2 = Except.ok url) :
    (∀ a ∈ ((S3Uploader.init s3_bucket s3_relative_path cf).upload_image
        p md5 head o v).1,
      a.key = stripSlashes s3_relative_path ++ '/' :: baseName p) ∧
    url = "https://".toList ++
        (cf.getD (s3_bucket ++ ".s3.amazonaws.com".toList)) ++
        '/' :: pyQuote (stripSlashes s3_relative_path ++ '/' :: baseName p) ∧
    (∀ p0 rh : List Char,
      pyFormatKey "docs/\x7bfilename\x7d".toList (pyStem "notes/post.md".toList) p0 rh =
        "docs/post".toList) ∧
    s3Url (S3Uploader.init "b".toList "docs/post".toList none) "a.png".toList =
      "https://b.s3.amazonaws.com/docs/post/a.png".toList := by
  refine ⟨s3_upload_actions_key _ p md5 head o v, ?_, fun p0 rh => rfl, by decide⟩
  have := s3_upload_ok_url _ p md5 head o v url h
  rw [this]
  rfl

/-- C5 witness: the key and URL shape at a concrete upload against an
empty remote. -/
theorem s3_key_url_format_witness :
    ((S3Uploader.init "b".toList "docs/post".toList none).upload_image
        "a.png".toList "m".toList (fun _ => HeadResponse.clientError "404".toList)
        false true).2 = Except.ok "https://b.s3.amazonaws.com/docs/post/a.png".toList ∧
    "https://b.s3.amazonaws.com/docs/post/a.png".toList =
      "https://".toList ++ ("b".toList ++ ".s3.amazonaws.com".toList) ++
        '/' :: pyQuote (stripSlashes "docs/post".toList ++ '/' :: baseName "a.png".toList) := by
  refine ⟨by rfl, ?_⟩
  exact (s3_key_url_format "b".toList "docs/post".toList "a.png".toList "m".toList
    none (fun _ => HeadResponse.clientError "404".toList) false true
    "https://b.s3.amazonaws.com/docs/post/a.png".toList (by rfl)).2.1

/-- C8: a document with no relative image reference is passed through
unchanged with an empty mapping and no upload call. -/
theorem no_images_identity (content base : List Char)
    (fsExists : List Char → Bool) (up : List Char → List Char)
    (refs : List (List Char)) (hord : ValidOrder content refs)
    (hnone : (findall content).filter is_relative = []) :
    upload_relative_images content base fsExists up refs =
      { uploads := [], outcome := Except.ok ([], content) } := by
  have hrefs : refs = [] := by
    apply List.eq_nil_iff_forall_not_mem.mpr
    intro r hr
    have hmem : r ∈ (findall content).filter is_relative :=
      List.mem_filter.mpr ((hord.2 r).mp hr)
    rw [hnone] at hmem
    exact absurd hmem (List.not_mem_nil r)
  subst hrefs
  rfl

/-- C8 witness: a plain document with no image tag at all. -/
theorem no_images_identity_witness :
    ValidOrder "hello [link](x.md) world".toList [] ∧
    (findall "hello [link](x.md) world".toList).filter is_relative = [] ∧
    upload_relative_images "hello [link](x.md) world".toList "d".toList
        (fun _ => true) (fun _ => "U".toList) [] =
      { uploads := [], outcome := Except.ok ([], "hello [link](x.md) world".toList) } := by
  have hv := validOrder_extractRefs "hello [link](x.md) world".toList
  have he : extractRefs "hello [link](x.md) world".toList = [] := by decide
  rw [he] at hv
  refine ⟨hv, by decide, ?_⟩
  exact no_images_identity "hello [link](x.md) world".toList "d".toList
    (fun _ => true) (fun _ => "U".toList) [] hv (by decide)

/-- C2: when some extracted reference resolves (after percent decoding,
against the document directory) to a path that does not exist, the
pipeline raises the aggregated missing-images error naming every missing
resolved path, and performs no upload call at all. -/
theorem missing_images_abort (content base : List Char)
    (fsExists : List Char → Bool) (up : List Char → List Char)
    (refs : List (List Char)) (_hord : ValidOrder content refs)
    (hmiss : ∃ r ∈ refs, fsExists (resolveRef base r) = false) :
    (upload_relative_images content base fsExists up refs).uploads = [] ∧
    (upload_relative_images content base fsExists up refs).outcome =
      Except.error ("Missing images: ".toList ++ joinWith [',']
        ((refs.filter (fun r => !fsExists (resolveRef base r))).map
          (fun r => resolveRef base r))) ∧
    ∀ r ∈ refs, fsExists (resolveRef base r) = false →
      resolveRef base r ∈
        (refs.filter (fun r => !fsExists (resolveRef base r))).map
          (fun r => resolveRef base r) := by
  have hin : ∀ r ∈ refs, fsExists (resolveRef base r) = false →
      resolveRef base r ∈
        (refs.filter (fun r => !fsExists (resolveRef base r))).map
          (fun r => resolveRef base r) := by
    intro r hr hfs
    exact List.mem_map.mpr ⟨r, List.mem_filter.mpr ⟨hr, by simp [hfs]⟩, rfl⟩
  obtain ⟨r0, hr0, hfs0⟩ := hmiss
  have hne : (refs.filter (fun r => !fsExists (resolveRef base r))).map
      (fun r => resolveRef base r) ≠ [] :=
    List.ne_nil_of_mem (hin r0 hr0 hfs0)
  have hrw :
      (((refs.map (fun r => (r, resolveRef base r))).filter
        (fun ra => !fsExists ra.2)).map (fun ra => ra.2)) =
      (refs.filter (fun r => !fsExists (resolveRef base r))).map
        (fun r => resolveRef base r) :=
    map_filter_snd refs (resolveRef base) (fun x => !fsExists x)
  refine ⟨?_, ?_, hin⟩ <;>
    · simp only [upload_relative_images]
      rw [hrw, if_neg hne]

/-- C2 witness: two references, one of which resolves to a missing path;
the single missing path is listed and no upload happens. -/
theorem missing_images_abort_witness :
    ValidOrder "x ![](a.png) y ![](b.png) z".toList ["a.png".toList, "b.png".toList] ∧
    (upload_relative_images "x ![](a.png) y ![](b.png) z".toList "d".toList
        (fun p => p = "d/a.png".toList) (fun _ => "U".toList)
        ["a.png".toList, "b.png".toList]).uploads = [] ∧
    (upload_relative_images "x ![](a.png) y ![](b.png) z".toList "d".toList
        (fun p => p = "d/a.png".toList) (fun _ => "U".toList)
        ["a.png".toList, "b.png".toList]).outcome =
      Except.error "Missing images: d/b.png".toList := by
  have hv := validOrder_extractRefs "x ![](a.png) y ![](b.png) z".toList
  have he : extractRefs "x ![](a.png) y ![](b.png) z".toList =
      ["a.png".toList, "b.png".toList] := by decide
  rw [he] at hv
  have h := missing_images_abort "x ![](a.png) y ![](b.png) z".toList "d".toList
    (fun p => p = "d/a.png".toList) (fun _ => "U".toList)
    ["a.png".toList, "b.png".toList] hv
    ⟨"b.png".toList, by decide, by decide⟩
  refine ⟨hv, h.1, ?_⟩
  rw [h.2.1]
  rfl

/-- When every extracted reference resolves to an existing path, the
pipeline uploads each reference once, in order, and folds one replace
pass per reference over the text. -/
lemma upload_ok_of_all_exist (content base : List Char)
    (fsExists : List Char → Bool) (up : List Char → List Char)
    (refs : List (List Char))
    (hex : ∀ r ∈ refs, fsExists (resolveRef base r) = true) :
    upload_relative_images content base fsExists up refs =
      { uploads := refs.map (fun r => (r, resolveRef base r)),
        outcome := Except.ok (refs.map (fun r => (r, up (resolveRef base r))),
          (refs.map (fun r => (r, up (resolveRef base r)))).foldl
            (fun c ru => pyReplace c ru.1 ru.2) content) } := by
  have hmnil : (refs.map (fun r => (r, resolveRef base r))).filter
      (fun ra => !fsExists ra.2) = [] := by
    apply List.filter_eq_nil_iff.mpr
    intro x hx
    obtain ⟨r0, hr0, rfl⟩ := List.mem_map.mp hx
    simp [hex r0 hr0]
  have hresults : (refs.map (fun r => (r, resolveRef base r))).map
      (fun ra => (ra.1, up ra.2)) = refs.map (fun r => (r, up (resolveRef base r))) := by
    rw [List.map_map]
    rfl
  simp only [upload_relative_images]
  rw [hmnil]
  simp only [List.map_nil, if_pos rfl]
  rw [hresults, if_pos trivial]

/-- C1 (amended): a reference appearing anywhere in the extracted set is
uploaded exactly once — occurrences are de-duplicated by raw path before
uploading; and when it is the only extracted reference, its single
replace pass substitutes its one URL at every leftmost non-overlapping
occurrence, leaving no occurrence between the substituted ones.  When
another extracted reference interferes (one reference a substring of
another), occurrences destroyed by the other reference's pass are not
replaced; see the counterexample. -/
theorem dedup_single_upload (content base : List Char)
    (fsExists : List Char → Bool) (up : List Char → List Char)
    (refs : List (List Char)) (R : List Char)
    (hord : ValidOrder content refs) (hR : R ∈ refs) (hRne : R ≠ [])
    (hex : ∀ r ∈ refs, fsExists (resolveRef base r) = true) :
    ((upload_relative_images content base fsExists up refs).uploads.filter
        (fun ra => ra.1 = R)).length = 1 ∧
    (refs = [R] →
      (upload_relative_images content base fsExists up refs).outcome =
        Except.ok ([(R, up (resolveRef base R))],
          joinWith (up (resolveRef base R)) (pySplit content R)) ∧
      ∀ chunk ∈ pySplit content R, hasSub R chunk = false) := by
  rw [upload_ok_of_all_exist content base fsExists up refs hex]
  constructor
  · show ((refs.map (fun r => (r, resolveRef base r))).filter
        (fun ra => ra.1 = R)).length = 1
    rw [filter_fst_pairs refs (resolveRef base) R,
      filter_eq_singleton_of_nodup refs R hord.1 hR]
    rfl
  · rintro rfl
    refine ⟨?_, pySplit_chunks content R hRne⟩
    show Except.ok ([(R, up (resolveRef base R))],
        [(R, up (resolveRef base R))].foldl (fun c ru => pyReplace c ru.1 ru.2) content) = _
    rw [List.foldl_cons, List.foldl_nil,
      pyReplace_eq_joinWith content R (up (resolveRef base R)) hRne]

/-- C1 counterexample: the claim as stated fails when one extracted
reference is a substring of another.  Here the set iteration order puts
a.png first; its pass rewrites the occurrence of img/a.png into img/UONE,
so the single occurrence of the reference img/a.png is never replaced
with its own URL UTWO, which does not appear in the output at all. -/
theorem dedup_single_upload_counterexample :
    ValidOrder "![](a.png)![](img/a.png)".toList
      ["a.png".toList, "img/a.png".toList] ∧
    "img/a.png".toList ∈ ["a.png".toList, "img/a.png".toList] ∧
    hasSub "img/a.png".toList "![](a.png)![](img/a.png)".toList = true ∧
    (upload_relative_images "![](a.png)![](img/a.png)".toList "d".toList
        (fun _ => true)
        (fun p => if p = "d/img/a.png".toList then "UTWO".toList else "UONE".toList)
        ["a.png".toList, "img/a.png".toList]).outcome =
      Except.ok ([("a.png".toList, "UONE".toList), ("img/a.png".toList, "UTWO".toList)],
        "![](UONE)![](img/UONE)".toList) ∧
    hasSub "UTWO".toList "![](UONE)![](img/UONE)".toList = false := by
  have hv := validOrder_extractRefs "![](a.png)![](img/a.png)".toList
  have he : extractRefs "![](a.png)![](img/a.png)".toList =
      ["a.png".toList, "img/a.png".toList] := by decide
  rw [he] at hv
  exact ⟨hv, by decide, by decide, by rfl, by decide⟩

/-- C1 witness: a document with two occurrences of the same reference is
uploaded once and both occurrences get the one URL. -/
theorem dedup_single_upload_witness :
    ValidOrder "twice ![i](im.png) and ![j](im.png) end".toList ["im.png".toList] ∧
    ((upload_relative_images "twice ![i](im.png) and ![j](im.png) end".toList
        "d".toList (fun _ => true) (fun _ => "W".toList)
        ["im.png".toList]).uploads.filter
          (fun ra => ra.1 = "im.png".toList)).length = 1 ∧
    (upload_relative_images "twice ![i](im.png) and ![j](im.png) end".toList
        "d".toList (fun _ => true) (fun _ => "W".toList)
        ["im.png".toList]).outcome =
      Except.ok ([("im.png".toList, "W".toList)],
        joinWith "W".toList
          (pySplit "twice ![i](im.png) and ![j](im.png) end".toList "im.png".toList)) := by
  have hv := validOrder_extractRefs "twice ![i](im.png) and ![j](im.png) end".toList
  have he : extractRefs "twice ![i](im.png) and ![j](im.png) end".toList =
      ["im.png".toList] := by decide
  rw [he] at hv
  have h := dedup_single_upload "twice ![i](im.png) and ![j](im.png) end".toList
    "d".toList (fun _ => true) (fun _ => "W".toList) ["im.png".toList]
    "im.png".toList hv (by decide) (by decide) (fun r _ => rfl)
  exact ⟨hv, h.1, (h.2 rfl).1⟩

/-- C4 (amended): substitution applies one replace pass per extracted
reference, in the given set order; each pass is exhaustive for the text
it runs on, splitting it at every leftmost non-overlapping occurrence of
the reference and joining the chunks, which contain no further
occurrence, with the reference's URL.  Occurrences destroyed by an
earlier pass (one reference a substring of another, or of a URL) are not
replaced by their own URL; see the counterexample. -/
theorem substitution_passes (content base : List Char)
    (fsExists : List Char → Bool) (up : List Char → List Char)
    (refs : List (List Char)) (_hord : ValidOrder content refs)
    (hne : ∀ r ∈ refs, r ≠ [])
    (hex : ∀ r ∈ refs, fsExists (resolveRef base r) = true) :
    (upload_relative_images content base fsExists up refs).outcome =
      Except.ok (refs.map (fun r => (r, up (resolveRef base r))),
        (refs.map (fun r => (r, up (resolveRef base r)))).foldl
          (fun c ru => joinWith ru.2 (pySplit c ru.1)) content) ∧
    ∀ ru ∈ refs.map (fun r => (r, up (resolveRef base r))),
      ∀ c : List Char, ∀ chunk ∈ pySplit c ru.1, hasSub ru.1 chunk = false := by
  rw [upload_ok_of_all_exist content base fsExists up refs hex]
  constructor
  · show Except.ok (_, (refs.map (fun r => (r, up (resolveRef base r)))).foldl
        (fun c ru => pyReplace c ru.1 ru.2) content) = _
    rw [foldl_replace_eq_joinWith (refs.map (fun r => (r, up (resolveRef base r)))) content
      (by
        intro ru hru
        obtain ⟨r, hr, rfl⟩ := List.mem_map.mp hru
        exact hne r hr)]
  · intro ru hru c chunk hch
    obtain ⟨r, hr, rfl⟩ := List.mem_map.mp hru
    exact pySplit_chunks c r (hne r hr) chunk hch

/-- C4 counterexample: the claim as stated fails: with references b.png
and pics/b.png and the set order that substitutes b.png first, the
occurrence of pics/b.png is rewritten to pics/VONE by the first pass, so
it is not replaced by its own URL VTWO, which never appears in the
written output. -/
theorem substitution_passes_counterexample :
    ValidOrder "see ![x](b.png) and ![y](pics/b.png)".toList
      ["b.png".toList, "pics/b.png".toList] ∧
    hasSub "pics/b.png".toList "see ![x](b.png) and ![y](pics/b.png)".toList = true ∧
    (upload_relative_images "see ![x](b.png) and ![y](pics/b.png)".toList "doc".toList
        (fun _ => true)
        (fun p => if p = "doc/pics/b.png".toList then "VTWO".toList else "VONE".toList)
        ["b.png".toList, "pics/b.png".toList]).outcome =
      Except.ok ([("b.png".toList, "VONE".toList), ("pics/b.png".toList, "VTWO".toList)],
        "see ![x](VONE) and ![y](pics/VONE)".toList) ∧
    hasSub "VTWO".toList "see ![x](VONE) and ![y](pics/VONE)".toList = false := by
  have hv := validOrder_extractRefs "see ![x](b.png) and ![y](pics/b.png)".toList
  have he : extractRefs "see ![x](b.png) and ![y](pics/b.png)".toList =
      ["b.png".toList, "pics/b.png".toList] := by decide
  rw [he] at hv
  exact ⟨hv, by decide, by rfl, by decide⟩

/-- C4 witness: a single reference with one occurrence is substituted by
its pass, and the pass leaves no occurrence behind. -/
theorem substitution_passes_witness :
    ValidOrder "a ![p](q.png) b".toList ["q.png".toList] ∧
    (upload_relative_images "a ![p](q.png) b".toList "d".toList
        (fun _ => true) (fun _ => "Q".toList) ["q.png".toList]).outcome =
      Except.ok ([("q.png".toList, "Q".toList)],
        [("q.png".toList, "Q".toList)].foldl
          (fun c ru => joinWith ru.2 (pySplit c ru.1)) "a ![p](q.png) b".toList) ∧
    ∀ ru ∈ [("q.png".toList, "Q".toList)],
      ∀ c : List Char, ∀ chunk ∈ pySplit c ru.1, hasSub ru.1 chunk = false := by
  have hv := validOrder_extractRefs "a ![p](q.png) b".toList
  have he : extractRefs "a ![p](q.png) b".toList = ["q.png".toList] := by decide
  rw [he] at hv
  have h := substitution_passes "a ![p](q.png) b".toList "d".toList
    (fun _ => true) (fun _ => "Q".toList) ["q.png".toList] hv
    (by decide) (fun r _ => rfl)
  exact ⟨hv, h.1, h.2⟩

end MarkdownTools
